import Mathlib

/-!
# Verification of the heckserver lexicon core (src/main.rs)

Shallow embedding of the lexical-entry pipeline of `src/main.rs`:
the validation logic of `tavsa_add`, the morphological analyzer
`get_word_etymology`, and the bulk-import path `tavsa_serialize`.

Rust strings are modelled as Lean `String`/`List Char` (character
indexing; the inputs of interest are ASCII, where Rust's byte indices
coincide with character indices and `str::to_lowercase` agrees with
per-character `Char.toLower`).  Rust panics (`todo!()`, out-of-bounds
slicing, out-of-bounds `Vec` indexing, `Result::unwrap` on `Err`) are
modelled as explicit `Except.error` values of type `Panic`, so that
"the code panics on this input" is a provable proposition.
-/

set_option autoImplicit false

deriving instance DecidableEq for Except

namespace Heckserver

/-- The ways the source code can panic, made explicit in the embedding. -/
inductive Panic where
  /-- `word[i..=i+1]` with `i + 2 > word.len()` (string-slice out of bounds). -/
  | sliceOutOfBounds
  /-- `todo!()` reached (unimplemented match arm). -/
  | todo
  /-- `pair[1]` on a `Vec` of length < 2 (index out of bounds). -/
  | indexOutOfBounds
  /-- `.unwrap()` on an `Err` value. -/
  | unwrapOnErr
deriving DecidableEq, Repr

/-- `const WORD_TYPES: [&str; 3] = ["noun", "verb", "amuini"];` -/
def WORD_TYPES : List String := ["noun", "verb", "amuini"]

/-- The `TavsaEtymology` struct of the source. -/
structure TavsaEtymology where
  lexema : String
  subject : Option String
  ci : Option String
  modifiers : List String
deriving DecidableEq, Repr

/-- The `TavsaWord` struct of the source (`r#type` is rendered `type`). -/
structure TavsaWord where
  id : Int
  word : String
  definition : String
  type : String
  etymology : Option String
deriving DecidableEq, Repr

/-- First index at which `pat` occurs as a contiguous sublist of `s`
(the embedding of Rust `str::find` for ASCII strings). -/
def findSub (pat : List Char) : List Char → Option Nat
  | [] => if pat = [] then some 0 else none
  | c :: rest =>
    if pat.isPrefixOf (c :: rest) then some 0
    else (findSub pat rest).map (· + 1)

/-- `s.find(pat)` of the source, on `String`. -/
def strFind (s pat : String) : Option Nat :=
  findSub pat.data s.data

/-- `word[i..=i+1].to_string()` applied under `Option.map` in the source:
a two-character slice that panics when `i + 2` exceeds the length. -/
def extractTwo (word : List Char) : Option Nat → Except Panic (Option String)
  | none => .ok none
  | some i =>
    if i + 2 ≤ word.length then .ok (some ⟨(word.drop i).take 2⟩)
    else .error .sliceOutOfBounds

/-- The `get_word_etymology` function of the source.

```rust
fn get_word_etymology(word: &str, word_type: &str) -> Option<TavsaEtymology> {
    match word_type {
        "verb" => {
            if let Some(index) = word.find("rn") {
                let letters = &word[..index];
                let subject = word.find("t").or(word.find("d"))
                    .map(|index| word[index..=index+1].to_string());
                let ci = word.find("k").or(word.find("g"))
                    .map(|index| word[index..=index+1].to_string());
                Some(TavsaEtymology { lexema: letters.to_string(),
                    subject, ci, modifiers: vec![] })
            } else { None }
        }
        "noun" => todo!(),
        "amuini" => todo!(),
        _ => todo!(),
    }
}
```

All non-`"verb"` arms execute `todo!()`, i.e. panic. -/
def get_word_etymology (word word_type : String) : Except Panic (Option TavsaEtymology) :=
  if word_type = "verb" then
    match strFind word "rn" with
    | some index => do
      let letters : String := ⟨word.data.take index⟩
      let subject ← extractTwo word.data ((strFind word "t").or (strFind word "d"))
      let ci ← extractTwo word.data ((strFind word "k").or (strFind word "g"))
      Except.ok (some { lexema := letters, subject := subject, ci := ci, modifiers := [] })
    | none => Except.ok none
  else
    Except.error Panic.todo

/-- `String::is_empty` of the source. -/
def strIsEmpty (s : String) : Bool :=
  s.data.isEmpty

/-- Rust `str::to_lowercase`, on the ASCII fragment: per-character
lowering. -/
def toLowercase (s : String) : String :=
  ⟨s.data.map Char.toLower⟩

/-- `String::contains` of the source (`find(..).is_some()` for ASCII). -/
def strContains (s pat : String) : Bool :=
  (strFind s pat).isSome

/-- The validation core of the `tavsa_add` handler (the spec's
`WordValidator.validate`): field-completeness check, `auto` resolution,
closed-enumeration check.  Errors are the literal response strings the
handler returns.  On success it yields the resolved word type that the
handler then inserts.

```rust
if word_type.is_empty() || word.is_empty() || definition.is_empty() {
    return "Missing fields".to_string();
}
if word_type == "auto" {
    if word.contains("rn") {
        word_type = "verb".to_string();
    } else {
        return "Invalid word type".to_string();
    }
}
if WORD_TYPES.iter().find(|&x| x == &word_type).is_none() {
    return "Invalid word type".to_string();
}
```
-/
def validate (word_type word definition : String) : Except String String :=
  if strIsEmpty word_type || strIsEmpty word || strIsEmpty definition then
    Except.error "Missing fields"
  else do
    let wt ← if word_type = "auto" then
        if strContains word "rn" then Except.ok "verb"
        else Except.error "Invalid word type"
      else Except.ok word_type
    if (WORD_TYPES.find? (fun x => x == wt)).isNone then
      Except.error "Invalid word type"
    else
      Except.ok wt

/-- Rust `str::split_whitespace`: splits at runs of whitespace, producing
no empty tokens.  The accumulator holds the current token reversed. -/
def splitWhitespaceAux : List Char → List Char → List (List Char)
  | [], [] => []
  | [], cur => [cur.reverse]
  | c :: rest, cur =>
    if c.isWhitespace then
      match cur with
      | [] => splitWhitespaceAux rest []
      | _ :: _ => cur.reverse :: splitWhitespaceAux rest []
    else
      splitWhitespaceAux rest (c :: cur)

/-- `body.split_whitespace()` of the source. -/
def splitWhitespace (s : List Char) : List (List Char) :=
  splitWhitespaceAux s []

/-- Rust `str::split("=")`: all parts between occurrences of `'='`,
empty parts included; always at least one part. -/
def splitEqAux : List Char → List Char → List (List Char)
  | [], cur => [cur.reverse]
  | c :: rest, cur =>
    if c = '=' then cur.reverse :: splitEqAux rest []
    else splitEqAux rest (c :: cur)

/-- `word.split("=").collect::<Vec<_>>()` of the source. -/
def splitEq (s : List Char) : List (List Char) :=
  splitEqAux s []

/-- The per-token body of the `map` closure in `tavsa_serialize`:

```rust
let pair = word.split("=").collect::<Vec<_>>();
let etymology = get_word_etymology(&pair[1], &q.word_type);
TavsaWord {
    id: index as i64 + first_index,
    word: pair[1].to_string().to_lowercase(),
    definition: pair[0].to_string().to_lowercase(),
    r#type: q.word_type.clone(),
    etymology: None,
}
```

`pair[1]` panics when the token has no `'='`; the etymology value is
computed (its panics propagate) and then discarded — the stored
`etymology` field is `None`.  `pair[0]` always exists because `split`
yields at least one part, so it is modelled with a default. -/
def mkTavsaWord (word_type : String) (first_index : Int) (index : Nat) (tok : String) :
    Except Panic TavsaWord := do
  let pair := splitEq tok.data
  let w1 ← match pair.get? 1 with
    | some w => Except.ok w
    | none => Except.error Panic.indexOutOfBounds
  let _etymology ← get_word_etymology ⟨w1⟩ word_type
  Except.ok {
    id := first_index + (index : Int),
    word := toLowercase ⟨w1⟩,
    definition := toLowercase ⟨pair.getD 0 []⟩,
    type := word_type,
    etymology := none }

/-- The enumerated `map` over the whitespace-split tokens of the body,
driven in input order (in the source the iterator is consumed by the
query-building `fold`); the first panic aborts everything. -/
def serializeTokens (word_type : String) (first_index : Int) :
    Nat → List (List Char) → Except Panic (List TavsaWord)
  | _, [] => Except.ok []
  | index, tok :: rest => do
    let w ← mkTavsaWord word_type first_index index ⟨tok⟩
    let ws ← serializeTokens word_type first_index (index + 1) rest
    Except.ok (w :: ws)

/-- The list of `TavsaWord`s produced by `tavsa_serialize` for a given
starting id and raw body. -/
def serializeWords (word_type : String) (first_index : Int) (body : String) :
    Except Panic (List TavsaWord) :=
  serializeTokens word_type first_index 0 (splitWhitespace body.data)

/-- The starting id computed by `tavsa_serialize`:
`max_id + 1` when the `select id ... order by id desc limit 1` query
returns a row, `1` when it errors (empty store). -/
def firstIndex : Option Int → Int
  | some id => id + 1
  | none => 1

/-- The literal prefix of the bulk-insert statement built by the fold. -/
def insertHead : String := "INSERT INTO tavsa (id, type, word, definition) VALUES"

/-- One fragment appended per word by the fold:
`format!("{} ({}, '{}', '{}', '{}'),", accum, word.id, word.r#type, word.word, word.definition)`
appends exactly this text to `accum`. -/
def rowFragment (w : TavsaWord) : String :=
  " (" ++ toString w.id ++ ", '" ++ w.type ++ "', '" ++ w.word ++ "', '" ++ w.definition ++ "'),"

/-- The fold of `tavsa_serialize` building the raw statement text. -/
def buildQueryString (ws : List TavsaWord) : String :=
  ws.foldl (fun accum w => accum ++ rowFragment w) insertHead

/-- `query_string.pop(); query_string += ";";` of the source: the last
character is removed unconditionally, then `";"` is appended. -/
def finalQuery (ws : List TavsaWord) : String :=
  (⟨(buildQueryString ws).data.dropLast⟩ : String) ++ ";"

/-- The whole `tavsa_serialize` handler.  The statement execution is an
external SQLite call, abstracted as an oracle `execOk`; the source calls
`.unwrap()` on its result, so a failed execution is a panic, never a
returned error. -/
def tavsa_serialize (execOk : String → Bool) (word_type : String)
    (max_id : Option Int) (body : String) : Except Panic Unit := do
  let ws ← serializeWords word_type (firstIndex max_id) body
  let q := finalQuery ws
  if execOk q then Except.ok () else Except.error Panic.unwrapOnErr

end Heckserver

namespace Heckserver

/-- Claim C1 evidence: `get_word_etymology("arnt", "verb")` finds `"rn"` at
index 1, then finds `"t"` at index 3 — the last index of the word — and the
slice `word[3..=4]` runs past the end of the string: the source panics
instead of returning a recoverable `OutOfBounds` error. -/
theorem etymology_marker_at_end_panics :
    get_word_etymology "arnt" "verb" = Except.error Panic.sliceOutOfBounds := by
  decide

/-- Claim C2 evidence: `get_word_etymology` hits `todo!()` — a process
abort — for word types `noun` and `amuini` and for any type outside the
closed enumeration, instead of returning a recoverable `NotImplemented`
error. -/
theorem etymology_noun_amuini_panics :
    get_word_etymology "x" "noun" = Except.error Panic.todo ∧
    get_word_etymology "x" "amuini" = Except.error Panic.todo ∧
    get_word_etymology "x" "adjective" = Except.error Panic.todo := by
  exact ⟨by decide, by decide, by decide⟩

/-- Claim C3 evidence: a token with no `"="` makes `pair[1]` panic with an
index-out-of-bounds — the batch dies by process abort, not by a
`MalformedToken` error — while a token with a second `"="` is silently
accepted: the part between the first and second `"="` becomes the word and
the trailing content is dropped, with no error at all. -/
theorem malformed_token_not_an_error :
    serializeWords "verb" 1 "birdamirna" = Except.error Panic.indexOutOfBounds ∧
    serializeWords "verb" 1 "bird=amirna=x" =
      Except.ok [{ id := 1, word := "amirna", definition := "bird",
                   type := "verb", etymology := none }] := by
  exact ⟨by decide, by decide⟩

/-- A token on which the `map` closure of `tavsa_serialize` does not panic:
it has a part at index 1 and the (discarded) etymology computation
succeeds. -/
def tokenOk (word_type : String) (tok : List Char) : Bool :=
  match (splitEq tok).get? 1 with
  | some w => (get_word_etymology ⟨w⟩ word_type).isOk
  | none => false

/-- The part of a token at a given index of its `"="`-split. -/
def tokenPart (n : Nat) (tok : List Char) : String :=
  ⟨(splitEq tok).getD n []⟩

/-- The `TavsaWord` the closure builds for a non-panicking token. -/
def pureWord (word_type : String) (id : Int) (tok : List Char) : TavsaWord :=
  { id := id,
    word := toLowercase (tokenPart 1 tok),
    definition := toLowercase (tokenPart 0 tok),
    type := word_type,
    etymology := none }

/-- The words a batch of non-panicking tokens produces, with ids assigned
sequentially from `first_index` in input order. -/
def pureWords (word_type : String) (first_index : Int) :
    Nat → List (List Char) → List TavsaWord
  | _, [] => []
  | i, t :: ts =>
    pureWord word_type (first_index + (i : Int)) t ::
      pureWords word_type first_index (i + 1) ts

theorem getD_of_get? {α : Type} (l : List α) (n : Nat) (d w : α)
    (h : l.get? n = some w) : l.getD n d = w := by
  simp [List.getD_eq_getElem?_getD, ← List.get?_eq_getElem?, h]

theorem except_bind_ok {ε α β : Type} (a : α) (f : α → Except ε β) :
    (Except.ok a >>= f : Except ε β) = f a :=
  rfl

theorem tokenOk_elim (word_type : String) (tok : List Char)
    (h : tokenOk word_type tok = true) :
    ∃ w v, (splitEq tok).get? 1 = some w ∧
      get_word_etymology ⟨w⟩ word_type = Except.ok v := by
  unfold tokenOk at h
  split at h
  case h_1 w heq =>
    cases h2 : get_word_etymology ⟨w⟩ word_type with
    | error e => rw [h2] at h; simp [Except.isOk, Except.toBool] at h
    | ok v => exact ⟨w, v, heq, h2⟩
  case h_2 => exact absurd h (by simp)

theorem mkTavsaWord_eq_pure (word_type : String) (first_index : Int) (index : Nat)
    (tok : List Char) (h : tokenOk word_type tok = true) :
    mkTavsaWord word_type first_index index ⟨tok⟩ =
      Except.ok (pureWord word_type (first_index + (index : Int)) tok) := by
  obtain ⟨w, v, h1, h2⟩ := tokenOk_elim word_type tok h
  have h0 : ∃ w0, (splitEq tok).get? 0 = some w0 := by
    cases h3 : (splitEq tok).get? 0 with
    | none =>
      rw [List.get?_eq_none] at h3
      rw [List.get?_eq_none.mpr (Nat.le_trans h3 (Nat.le_succ 0))] at h1
      exact absurd h1 (by simp)
    | some w0 => exact ⟨w0, rfl⟩
  obtain ⟨w0, h3⟩ := h0
  unfold mkTavsaWord
  simp only [h1, h2, except_bind_ok, pureWord, tokenPart,
    getD_of_get? _ _ _ _ h1, getD_of_get? _ _ _ _ h3]

theorem serializeTokens_eq_pure (word_type : String) (first_index : Int) :
    ∀ (ts : List (List Char)) (i : Nat),
      (∀ t ∈ ts, tokenOk word_type t = true) →
      serializeTokens word_type first_index i ts =
        Except.ok (pureWords word_type first_index i ts) := by
  intro ts
  induction ts with
  | nil => intro i _; rfl
  | cons t ts ih =>
    intro i h
    have ht : tokenOk word_type t = true := h t (List.mem_cons_self t ts)
    have hts : ∀ t' ∈ ts, tokenOk word_type t' = true :=
      fun t' ht' => h t' (List.mem_cons_of_mem t ht')
    show (do
      let w ← mkTavsaWord word_type first_index i ⟨t⟩
      let ws ← serializeTokens word_type first_index (i + 1) ts
      Except.ok (w :: ws)) = _
    rw [mkTavsaWord_eq_pure word_type first_index i t ht, ih (i + 1) hts]
    rfl

theorem pureWords_length (word_type : String) (first_index : Int) :
    ∀ (ts : List (List Char)) (i : Nat),
      (pureWords word_type first_index i ts).length = ts.length := by
  intro ts
  induction ts with
  | nil => intro i; rfl
  | cons t ts ih => intro i; simp [pureWords, ih (i + 1)]

theorem pureWords_get (word_type : String) (first_index : Int) :
    ∀ (ts : List (List Char)) (i : Nat) (n : Nat)
      (hn : n < (pureWords word_type first_index i ts).length)
      (hn' : n < ts.length),
      (pureWords word_type first_index i ts).get ⟨n, hn⟩ =
        pureWord word_type (first_index + (i : Int) + (n : Int)) (ts.get ⟨n, hn'⟩) := by
  intro ts
  induction ts with
  | nil => intro i n hn hn'; exact absurd hn' (Nat.not_lt_zero n)
  | cons t ts ih =>
    intro i n hn hn'
    cases n with
    | zero => simp [pureWords]
    | succ m =>
      have hm : m < (pureWords word_type first_index (i + 1) ts).length := by
        rw [pureWords_length]; exact Nat.lt_of_succ_lt_succ hn'
      have hm' : m < ts.length := Nat.lt_of_succ_lt_succ hn'
      show (pureWords word_type first_index (i + 1) ts).get ⟨m, hm⟩ = _
      rw [ih (i + 1) m hm hm']
      have : first_index + ((i + 1 : Nat) : Int) + (m : Int) =
          first_index + (i : Int) + ((m + 1 : Nat) : Int) := by
        push_cast
        ring
      rw [this]
      rfl

/-- Claim C4 counterexample: a well-formed token (`"house=tokurna"` splits
into exactly two parts) with `word_type = "noun"` and store max id 5:
the (discarded) per-token etymology call hits `todo!()`, the whole batch
panics, and the token does not receive id 6 — no entry is produced at
all. -/
theorem serialize_noun_batch_counterexample :
    serializeWords "noun" (firstIndex (some 5)) "house=tokurna" = Except.error Panic.todo ∧
    (serializeWords "noun" (firstIndex (some 5)) "house=tokurna").isOk = false := by
  exact ⟨by decide, by decide⟩

/-- Claim C4 (amended): the starting id is `max_id + 1` for a non-empty
store and `1` for an empty one, and — provided every token of the batch
has an `"="` and its (computed-then-discarded) etymology call does not
panic, which fails e.g. for `word_type = "noun"` — the n-th token
(0-indexed, in input order) receives id `start + n`, with word and
definition lower-cased before storage. -/
theorem serialize_id_assignment (word_type : String) (max_id : Option Int) (body : String)
    (h : ∀ t ∈ splitWhitespace body.data, tokenOk word_type t = true) :
    (∀ m, firstIndex (some m) = m + 1) ∧ firstIndex none = 1 ∧
    ∃ ws, serializeWords word_type (firstIndex max_id) body = Except.ok ws ∧
      ws.length = (splitWhitespace body.data).length ∧
      ∀ (n : Nat) (hn : n < ws.length) (hn' : n < (splitWhitespace body.data).length),
        ws.get ⟨n, hn⟩ =
          { id := firstIndex max_id + (n : Int),
            word := toLowercase (tokenPart 1 ((splitWhitespace body.data).get ⟨n, hn'⟩)),
            definition := toLowercase (tokenPart 0 ((splitWhitespace body.data).get ⟨n, hn'⟩)),
            type := word_type,
            etymology := none } := by
  refine ⟨fun m => rfl, rfl,
    pureWords word_type (firstIndex max_id) 0 (splitWhitespace body.data), ?_, ?_, ?_⟩
  · exact serializeTokens_eq_pure word_type (firstIndex max_id) (splitWhitespace body.data) 0 h
  · exact pureWords_length word_type (firstIndex max_id) (splitWhitespace body.data) 0
  · intro n hn hn'
    rw [pureWords_get word_type (firstIndex max_id) (splitWhitespace body.data) 0 n hn hn']
    have : firstIndex max_id + ((0 : Nat) : Int) + (n : Int) =
        firstIndex max_id + (n : Int) := by
      push_cast
      ring
    rw [this]
    rfl

/-- Witness for the amended C4: store max id 5, body
`"house=tokurna bird=amirna"`, `word_type = "verb"` — both tokens are
well formed, their etymology calls succeed, and the theorem yields the
two entries with ids 6 and 7 in order. -/
theorem serialize_id_assignment_witness :
    (∀ t ∈ splitWhitespace ("house=tokurna bird=amirna" : String).data,
        tokenOk "verb" t = true) ∧
    ((∀ m, firstIndex (some m) = m + 1) ∧ firstIndex none = 1 ∧
      ∃ ws, serializeWords "verb" (firstIndex (some 5)) "house=tokurna bird=amirna" =
          Except.ok ws ∧
        ws.length = (splitWhitespace ("house=tokurna bird=amirna" : String).data).length ∧
        ∀ (n : Nat) (hn : n < ws.length)
          (hn' : n < (splitWhitespace ("house=tokurna bird=amirna" : String).data).length),
          ws.get ⟨n, hn⟩ =
            { id := firstIndex (some 5) + (n : Int),
              word := toLowercase (tokenPart 1
                ((splitWhitespace ("house=tokurna bird=amirna" : String).data).get ⟨n, hn'⟩)),
              definition := toLowercase (tokenPart 0
                ((splitWhitespace ("house=tokurna bird=amirna" : String).data).get ⟨n, hn'⟩)),
              type := "verb",
              etymology := none }) :=
  ⟨by decide, serialize_id_assignment "verb" (some 5) "house=tokurna bird=amirna" (by decide)⟩

/-- The two-character morpheme extraction at the index held by `o` stays
inside a word of length `len`. -/
def morphemeInBounds (o : Option Nat) (len : Nat) : Bool :=
  match o with
  | none => true
  | some j => decide (j + 2 ≤ len)

theorem extractTwo_ok (word : List Char) (o : Option Nat)
    (h : morphemeInBounds o word.length = true) :
    extractTwo word o = Except.ok (o.map fun j => ⟨(word.drop j).take 2⟩) := by
  cases o with
  | none => rfl
  | some j =>
    simp only [morphemeInBounds, decide_eq_true_eq] at h
    simp [extractTwo, h]

/-- Evaluation of `get_word_etymology` on a verb containing `"rn"`, when
both morpheme extractions stay in bounds. -/
theorem gwe_verb_eval (word : String) (i : Nat)
    (hrn : strFind word "rn" = some i)
    (hs : morphemeInBounds ((strFind word "t").or (strFind word "d")) word.data.length = true)
    (hc : morphemeInBounds ((strFind word "k").or (strFind word "g")) word.data.length = true) :
    get_word_etymology word "verb" = Except.ok (some {
      lexema := ⟨word.data.take i⟩,
      subject := ((strFind word "t").or (strFind word "d")).map
        fun j => ⟨(word.data.drop j).take 2⟩,
      ci := ((strFind word "k").or (strFind word "g")).map
        fun j => ⟨(word.data.drop j).take 2⟩,
      modifiers := [] }) := by
  unfold get_word_etymology
  rw [if_pos rfl, hrn]
  simp only [extractTwo_ok word.data _ hs, extractTwo_ok word.data _ hc, except_bind_ok]

/-- Claim C5 counterexample: `"arnd"` contains `"rn"` (at index 1) and has
type verb, yet `decompose` yields no decomposition at all — the first
`"d"` sits at the last index and the subject extraction `word[3..=4]`
panics — so the "returns a decomposition whose lexeme is the prefix"
claim fails for it. -/
theorem etymology_lexeme_counterexample :
    get_word_etymology "arnd" "verb" = Except.error Panic.sliceOutOfBounds ∧
    (get_word_etymology "arnd" "verb").isOk = false := by
  exact ⟨by decide, by decide⟩

/-- Claim C5 (amended): for a verb whose subject (`t`/`d`) and ci (`k`/`g`)
marker positions, when present, leave the two-character extraction in
bounds: if the word contains `"rn"` the decomposition exists, its lexeme
is the prefix of the word before the first `"rn"` and its modifiers are
empty; if the word has no `"rn"` there is no decomposition and no
error. -/
theorem etymology_lexeme_rule (word : String)
    (hs : morphemeInBounds ((strFind word "t").or (strFind word "d")) word.data.length = true)
    (hc : morphemeInBounds ((strFind word "k").or (strFind word "g")) word.data.length = true) :
    (∀ i, strFind word "rn" = some i →
      ∃ e, get_word_etymology word "verb" = Except.ok (some e) ∧
        e.lexema = ⟨word.data.take i⟩ ∧ e.modifiers = []) ∧
    (strFind word "rn" = none → get_word_etymology word "verb" = Except.ok none) := by
  constructor
  · intro i hrn
    exact ⟨_, gwe_verb_eval word i hrn hs hc, rfl, rfl⟩
  · intro hrn
    unfold get_word_etymology
    rw [if_pos rfl, hrn]

/-- Witness for the amended C5 at `"katrna"`: `"rn"` sits at index 3 and
the lexeme is `"kat"`. -/
theorem etymology_lexeme_rule_witness :
    (morphemeInBounds ((strFind "katrna" "t").or (strFind "katrna" "d"))
        ("katrna" : String).data.length = true) ∧
    (morphemeInBounds ((strFind "katrna" "k").or (strFind "katrna" "g"))
        ("katrna" : String).data.length = true) ∧
    ((∀ i, strFind "katrna" "rn" = some i →
      ∃ e, get_word_etymology "katrna" "verb" = Except.ok (some e) ∧
        e.lexema = ⟨("katrna" : String).data.take i⟩ ∧ e.modifiers = []) ∧
    (strFind "katrna" "rn" = none → get_word_etymology "katrna" "verb" = Except.ok none)) :=
  ⟨by decide, by decide, etymology_lexeme_rule "katrna" (by decide) (by decide)⟩

/-- First index of the character `c` in a list (the spec's "first index of
`t`" formulation, to compare with the source's substring search). -/
def firstCharIdx (c : Char) : List Char → Option Nat
  | [] => none
  | x :: xs => if x = c then some 0 else (firstCharIdx c xs).map (· + 1)

theorem findSub_singleton (c : Char) : ∀ s : List Char, findSub [c] s = firstCharIdx c s := by
  intro s
  induction s with
  | nil => rfl
  | cons x xs ih =>
    show (if [c].isPrefixOf (x :: xs) then some 0 else (findSub [c] xs).map (· + 1)) =
      (if x = c then some 0 else (firstCharIdx c xs).map (· + 1))
    have hp : [c].isPrefixOf (x :: xs) = (c == x) := by
      simp [List.isPrefixOf]
    rw [hp, ih]
    by_cases h : x = c
    · subst h
      simp
    · have hcx : (c == x) = false := by
        simp only [beq_eq_false_iff_ne, ne_eq]
        exact fun hh => h hh.symm
      rw [hcx, if_neg h]
      simp

theorem option_or_map {α β : Type} (a b : Option α) (f : α → β) :
    (a.or b).map f = (match a with
      | some x => some (f x)
      | none => b.map f) := by
  cases a <;> rfl

/-- Claim C6 counterexample: `"arng"` contains `"rn"` and has type verb,
but the ci slot is not filled by the `k`-else-`g` rule: the first `"g"`
sits at the last index, the extraction `word[3..=4]` panics, and no
decomposition is produced at all. -/
theorem etymology_marker_counterexample :
    get_word_etymology "arng" "verb" = Except.error Panic.sliceOutOfBounds ∧
    (get_word_etymology "arng" "verb").isOk = false := by
  exact ⟨by decide, by decide⟩

/-- Claim C6 (amended): for a verb containing `"rn"` whose marker
extractions stay in bounds, the subject slot follows the literal
"find `t`, else find `d`" rule — the two characters at the first index
of `t` whenever `t` occurs anywhere, and only otherwise at the first
index of `d` — and the ci slot independently follows the same rule with
`k` then `g`. -/
theorem etymology_marker_rule (word : String) (i : Nat)
    (hrn : strFind word "rn" = some i)
    (hs : morphemeInBounds ((strFind word "t").or (strFind word "d")) word.data.length = true)
    (hc : morphemeInBounds ((strFind word "k").or (strFind word "g")) word.data.length = true) :
    ∃ e, get_word_etymology word "verb" = Except.ok (some e) ∧
      e.subject = (match firstCharIdx 't' word.data with
        | some j => some ⟨(word.data.drop j).take 2⟩
        | none => (firstCharIdx 'd' word.data).map fun j => ⟨(word.data.drop j).take 2⟩) ∧
      e.ci = (match firstCharIdx 'k' word.data with
        | some j => some ⟨(word.data.drop j).take 2⟩
        | none => (firstCharIdx 'g' word.data).map fun j => ⟨(word.data.drop j).take 2⟩) ∧
      e.modifiers = [] := by
  refine ⟨_, gwe_verb_eval word i hrn hs hc, ?_, ?_, rfl⟩
  · show ((strFind word "t").or (strFind word "d")).map
        (fun j => (⟨(word.data.drop j).take 2⟩ : String)) = _
    rw [option_or_map]
    have ht : strFind word "t" = firstCharIdx 't' word.data := findSub_singleton 't' word.data
    have hd : strFind word "d" = firstCharIdx 'd' word.data := findSub_singleton 'd' word.data
    rw [ht, hd]
    cases firstCharIdx 't' word.data <;> rfl
  · show ((strFind word "k").or (strFind word "g")).map
        (fun j => (⟨(word.data.drop j).take 2⟩ : String)) = _
    rw [option_or_map]
    have hk : strFind word "k" = firstCharIdx 'k' word.data := findSub_singleton 'k' word.data
    have hg : strFind word "g" = firstCharIdx 'g' word.data := findSub_singleton 'g' word.data
    rw [hk, hg]
    cases firstCharIdx 'k' word.data <;> rfl

/-- Witness for the amended C6 at `"katrna"`: subject token `"tr"` (first
`"t"` at index 2), ci token `"ka"` (first `"k"` at index 0), modifiers
empty. -/
theorem etymology_marker_rule_witness :
    (strFind "katrna" "rn" = some 3) ∧
    (∃ e, get_word_etymology "katrna" "verb" = Except.ok (some e) ∧
      e.subject = (match firstCharIdx 't' ("katrna" : String).data with
        | some j => some ⟨(("katrna" : String).data.drop j).take 2⟩
        | none => (firstCharIdx 'd' ("katrna" : String).data).map
            fun j => ⟨(("katrna" : String).data.drop j).take 2⟩) ∧
      e.ci = (match firstCharIdx 'k' ("katrna" : String).data with
        | some j => some ⟨(("katrna" : String).data.drop j).take 2⟩
        | none => (firstCharIdx 'g' ("katrna" : String).data).map
            fun j => ⟨(("katrna" : String).data.drop j).take 2⟩) ∧
      e.modifiers = []) ∧
    get_word_etymology "katrna" "verb" = Except.ok (some {
      lexema := "kat", subject := some "tr", ci := some "ka", modifiers := [] }) :=
  ⟨by decide,
   etymology_marker_rule "katrna" 3 (by decide) (by decide) (by decide),
   by decide⟩

/-- Claim C7: `validate` fails with the missing-field error whenever any
of the three inputs is empty — the emptiness check is the first thing the
handler does, before any type resolution. -/
theorem validate_missing_field (word_type word definition : String)
    (h : strIsEmpty word_type = true ∨ strIsEmpty word = true ∨
      strIsEmpty definition = true) :
    validate word_type word definition = Except.error "Missing fields" := by
  unfold validate
  rcases h with h | h | h <;> simp [h]

/-- Witness for C7: the three spec examples all fail with the
missing-field error. -/
theorem validate_missing_field_witness :
    validate "" "x" "y" = Except.error "Missing fields" ∧
    validate "noun" "" "y" = Except.error "Missing fields" ∧
    validate "noun" "x" "" = Except.error "Missing fields" :=
  ⟨validate_missing_field "" "x" "y" (Or.inl (by decide)),
   validate_missing_field "noun" "" "y" (Or.inr (Or.inl (by decide))),
   validate_missing_field "noun" "x" "" (Or.inr (Or.inr (by decide)))⟩

/-- Claim C8 counterexample: for the empty word type (which is neither
`"auto"` nor in the closed enumeration) with non-empty word and
definition, `validate` fails with the missing-field error, not with the
invalid-type error the claim predicts for every non-`"auto"` type outside
the enumeration. -/
theorem validate_empty_type_counterexample :
    validate "" "x" "y" = Except.error "Missing fields" ∧
    validate "" "x" "y" ≠ Except.error "Invalid word type" := by
  exact ⟨by decide, by decide⟩

theorem find?_word_types (wt : String) :
    ((WORD_TYPES.find? (fun x => x == wt)).isNone = false) ↔
      (wt = "noun" ∨ wt = "verb" ∨ wt = "amuini") := by
  by_cases h1 : wt = "noun"
  · subst h1; decide
  by_cases h2 : wt = "verb"
  · subst h2; decide
  by_cases h3 : wt = "amuini"
  · subst h3; decide
  have e1 : (("noun" : String) == wt) = false := by
    simp only [beq_eq_false_iff_ne, ne_eq]
    exact fun hh => h1 hh.symm
  have e2 : (("verb" : String) == wt) = false := by
    simp only [beq_eq_false_iff_ne, ne_eq]
    exact fun hh => h2 hh.symm
  have e3 : (("amuini" : String) == wt) = false := by
    simp only [beq_eq_false_iff_ne, ne_eq]
    exact fun hh => h3 hh.symm
  simp [WORD_TYPES, List.find?, e1, e2, e3, h1, h2, h3]

/-- Claim C8 (amended): for non-empty word type, word and definition:
`"auto"` resolves to `verb` exactly when the word contains `"rn"` and
fails with the invalid-type error otherwise — no other type is ever
inferred from `"auto"` — and any word type other than `"auto"` succeeds
exactly when it is one of `noun`, `verb`, `amuini`, failing with the
invalid-type error otherwise.  (The empty word type, excluded here, fails
earlier with the missing-field error.) -/
theorem validate_type_resolution (word_type word definition : String)
    (ht : strIsEmpty word_type = false) (hw : strIsEmpty word = false)
    (hd : strIsEmpty definition = false) :
    (word_type = "auto" →
      (strContains word "rn" = true →
        validate word_type word definition = Except.ok "verb") ∧
      (strContains word "rn" = false →
        validate word_type word definition = Except.error "Invalid word type")) ∧
    (word_type ≠ "auto" →
      ((word_type = "noun" ∨ word_type = "verb" ∨ word_type = "amuini") →
        validate word_type word definition = Except.ok word_type) ∧
      (¬(word_type = "noun" ∨ word_type = "verb" ∨ word_type = "amuini") →
        validate word_type word definition = Except.error "Invalid word type")) := by
  have houter : (strIsEmpty word_type || strIsEmpty word || strIsEmpty definition) = false := by
    rw [ht, hw, hd]
    rfl
  constructor
  · intro ha
    subst ha
    constructor
    · intro hrn
      unfold validate
      rw [houter, if_neg Bool.false_ne_true, if_pos rfl, hrn, if_pos rfl]
      rfl
    · intro hrn
      unfold validate
      rw [houter, if_neg Bool.false_ne_true, if_pos rfl, hrn, if_neg Bool.false_ne_true]
      rfl
  · intro hna
    constructor
    · intro hmem
      have hfind : ((WORD_TYPES.find? (fun x => x == word_type)).isNone = false) :=
        (find?_word_types word_type).mpr hmem
      unfold validate
      rw [houter, if_neg Bool.false_ne_true, if_neg hna, except_bind_ok]
      simp only [hfind, Bool.false_eq_true, if_false]
    · intro hmem
      have hfind : ¬ ((WORD_TYPES.find? (fun x => x == word_type)).isNone = false) :=
        fun hf => hmem ((find?_word_types word_type).mp hf)
      have hfind' : (WORD_TYPES.find? (fun x => x == word_type)).isNone = true := by
        cases hh : (WORD_TYPES.find? (fun x => x == word_type)).isNone with
        | false => exact absurd hh hfind
        | true => rfl
      unfold validate
      rw [houter, if_neg Bool.false_ne_true, if_neg hna, except_bind_ok]
      simp only [hfind', if_true]

/-- Witness for the amended C8: `"auto"` with `"katrna"` resolves to
`verb`; `"auto"` with `"zint"` (no `"rn"`) fails with the invalid-type
error. -/
theorem validate_type_resolution_witness :
    (strIsEmpty "auto" = false ∧ strIsEmpty "katrna" = false ∧
      strIsEmpty "def" = false) ∧
    validate "auto" "katrna" "def" = Except.ok "verb" ∧
    validate "auto" "zint" "def" = Except.error "Invalid word type" :=
  ⟨⟨by decide, by decide, by decide⟩,
   ((validate_type_resolution "auto" "katrna" "def" (by decide) (by decide)
      (by decide)).1 rfl).1 (by decide),
   ((validate_type_resolution "auto" "zint" "def" (by decide) (by decide)
      (by decide)).1 rfl).2 (by decide)⟩

/-- SQL-standard escaping of a string literal: every single quote is
doubled.  This renders text as literal data inside `'...'` delimiters;
the source performs no such escaping. -/
def escapeQuotes : List Char → List Char
  | [] => []
  | c :: cs =>
    if c = '\'' then '\'' :: '\'' :: escapeQuotes cs
    else c :: escapeQuotes cs

/-- The row fragment a statement storing the token's fields as literal
data would contain: same shape as `rowFragment`, but the user-supplied
word and definition are quote-escaped so they cannot alter the statement
structure.  Comparison point for claim C9 only — nothing like it exists
in the source. -/
def rowFragmentEscaped (w : TavsaWord) : String :=
  " (" ++ toString w.id ++ ", '" ++ w.type ++ "', '" ++
    (⟨escapeQuotes w.word.data⟩ : String) ++ "', '" ++
    (⟨escapeQuotes w.definition.data⟩ : String) ++ "'),"

/-- Number of single-quote characters in a string. -/
def countQuote (s : String) : Nat :=
  s.data.count '\''

theorem escapeQuotes_count (s : List Char) :
    (escapeQuotes s).count '\'' = 2 * s.count '\'' := by
  induction s with
  | nil => rfl
  | cons c cs ih =>
    by_cases h : c = '\''
    · subst h
      simp [escapeQuotes, ih, List.count_cons]
      ring
    · simp [escapeQuotes, h, ih, List.count_cons]

/-- Claim C9: the bulk-insert statement embeds the (lower-cased) word and
definition verbatim between single quotes with no escaping; whenever one
of them contains a single quote, the generated fragment differs from the
fragment that would store the fields as literal data — the input text
reaches the statement and can alter its structure. -/
theorem sql_concat_injection (w : TavsaWord)
    (hq : '\'' ∈ w.word.data ∨ '\'' ∈ w.definition.data) :
    (∃ p s, (rowFragment w).data = p ++ w.word.data ++ s) ∧
    (∃ p s, (rowFragment w).data = p ++ w.definition.data ++ s) ∧
    rowFragment w ≠ rowFragmentEscaped w := by
  refine ⟨⟨(" (" ++ toString w.id ++ ", '" ++ w.type ++ "', '" : String).data,
      ("', '" ++ w.definition ++ "')," : String).data, ?_⟩,
    ⟨(" (" ++ toString w.id ++ ", '" ++ w.type ++ "', '" ++ w.word ++ "', '" : String).data,
      ("')," : String).data, ?_⟩, ?_⟩
  · simp [rowFragment, String.data_append, List.append_assoc]
  · simp [rowFragment, String.data_append, List.append_assoc]
  · intro heq
    have hcnt := congrArg countQuote heq
    unfold countQuote rowFragment rowFragmentEscaped at hcnt
    simp only [String.data_append, List.count_append, escapeQuotes_count] at hcnt
    have hpos : 0 < w.word.data.count '\'' ∨ 0 < w.definition.data.count '\'' := by
      rcases hq with h | h
      · exact Or.inl (List.count_pos_iff.mpr h)
      · exact Or.inr (List.count_pos_iff.mpr h)
    rcases hpos with h | h <;> omega

/-- A concrete bulk-import entry whose definition contains a single
quote (from a token like `o'brien=tavrna`). -/
def quotedSample : TavsaWord :=
  { id := 6
    word := "tavrna"
    definition := "o'brien"
    type := "verb"
    etymology := none }

/-- Witness for C9 at a definition containing a quote. -/
theorem sql_concat_injection_witness :
    ('\'' ∈ quotedSample.word.data ∨ '\'' ∈ quotedSample.definition.data) ∧
    ((∃ p s, (rowFragment quotedSample).data = p ++ quotedSample.word.data ++ s) ∧
    (∃ p s, (rowFragment quotedSample).data = p ++ quotedSample.definition.data ++ s) ∧
    rowFragment quotedSample ≠ rowFragmentEscaped quotedSample) :=
  ⟨Or.inr (by decide), sql_concat_injection quotedSample (Or.inr (by decide))⟩

theorem splitWhitespaceAux_all_ws :
    ∀ s : List Char, (∀ c ∈ s, c.isWhitespace = true) →
      splitWhitespaceAux s [] = [] := by
  intro s
  induction s with
  | nil => intro _; rfl
  | cons c cs ih =>
    intro h
    have hc : c.isWhitespace = true := h c (List.mem_cons_self c cs)
    have hcs : ∀ c' ∈ cs, c'.isWhitespace = true :=
      fun c' hc' => h c' (List.mem_cons_of_mem c hc')
    unfold splitWhitespaceAux
    rw [if_pos hc]
    exact ih hcs

/-- Claim C10: a bulk-import body that is empty or whitespace-only yields
zero tokens, the fold leaves only the bare `INSERT` prefix, the
unconditional `pop` removes the final `S` of `VALUES`, and the resulting
text — which no longer even contains the keyword `VALUES` — is handed to
the store; since the handler `unwrap`s the execution result, a failed
execution is a process panic, not a returned error. -/
theorem empty_body_malformed_sql (word_type : String) (max_id : Option Int)
    (body : String) (execOk : String → Bool)
    (hb : ∀ c ∈ body.data, c.isWhitespace = true)
    (hexec : execOk "INSERT INTO tavsa (id, type, word, definition) VALUE;" = false) :
    serializeWords word_type (firstIndex max_id) body = Except.ok [] ∧
    finalQuery [] = "INSERT INTO tavsa (id, type, word, definition) VALUE;" ∧
    strFind "INSERT INTO tavsa (id, type, word, definition) VALUE;" "VALUES" = none ∧
    tavsa_serialize execOk word_type max_id body = Except.error Panic.unwrapOnErr := by
  have hsw : splitWhitespace body.data = [] :=
    splitWhitespaceAux_all_ws body.data hb
  have h1 : serializeWords word_type (firstIndex max_id) body = Except.ok [] := by
    unfold serializeWords
    rw [hsw]
    rfl
  have h2 : finalQuery [] = "INSERT INTO tavsa (id, type, word, definition) VALUE;" := by
    decide
  refine ⟨h1, h2, by decide, ?_⟩
  unfold tavsa_serialize
  rw [h1, except_bind_ok, h2]
  simp only [hexec, Bool.false_eq_true, if_false]

/-- Witness for C10: a single-space body, an execution oracle that rejects
everything. -/
theorem empty_body_malformed_sql_witness :
    ((∀ c ∈ (" " : String).data, c.isWhitespace = true) ∧
      (fun _ : String => false) "INSERT INTO tavsa (id, type, word, definition) VALUE;" = false) ∧
    (serializeWords "verb" (firstIndex none) " " = Except.ok [] ∧
      finalQuery [] = "INSERT INTO tavsa (id, type, word, definition) VALUE;" ∧
      strFind "INSERT INTO tavsa (id, type, word, definition) VALUE;" "VALUES" = none ∧
      tavsa_serialize (fun _ : String => false) "verb" none " " =
        Except.error Panic.unwrapOnErr) :=
  ⟨⟨by decide, rfl⟩,
   empty_body_malformed_sql "verb" none " " (fun _ : String => false) (by decide) rfl⟩

end Heckserver
